import Mathlib

/-!
Verification of the limit-orders order-submission / cancellation handlers.

Shallow embedding of the handler modules
(`useGelatoStopLimitOrdersHandlers.ts`, `useGelatoStoplossOrdersLib.ts` and
the provider/UI module): pure Lean functions over explicit environment
records; external collaborator calls (execution client, signer, transaction
store) are environment-supplied values and the calls the handlers make are
recorded as explicit effect lists.
-/

/-- JavaScript truthiness of an optional string (`undefined` and `""` are falsy). -/
def jsTruthy : Option String → Bool
  | none => false
  | some s => s != ""

/-- JavaScript truthiness of an optional number (`undefined` and `0` are falsy). -/
def jsTruthyNat : Option Nat → Bool
  | none => false
  | some n => n != 0

/-- A dispatched transaction handle (`TransactionResponse`), reduced to its hash. -/
structure Tx where
  hash : String
deriving Repr, DecidableEq

/-- Ethers `Overrides` as used by the handlers: optional gas price and gas limit. -/
structure Overrides where
  gasPrice : Option Nat
  gasLimit : Option Nat
deriving Repr, DecidableEq

/-- The transaction request assembled for `signer.sendTransaction`:
the spread of `overrides ?? { gasPrice }` followed by `to`, `data`, `value`. -/
structure TxRequest where
  toAddress : String
  data : String
  value : String
  gasPrice : Option Nat
  gasLimit : Option Nat
deriving Repr, DecidableEq

/-- The `to` / `data` / `value` payload returned by the submission encoder. -/
structure Payload where
  toAddress : String
  data : String
  value : String
deriving Repr, DecidableEq

/-- A `StopLimitOrder` history record: the fields the handlers read or write.
Optional fields mirror the fields that may be absent on a caller-supplied
record; `status` is the literal status string ("open" / "cancelled"). -/
structure StopLimitOrder where
  id : String
  module : Option String
  inputToken : Option String
  outputToken : Option String
  inputAmount : Option String
  maxOutputAmount : Option String
  owner : Option String
  witness : Option String
  data : Option String
  status : String
  createdTxHash : Option String
  cancelledTxHash : Option String
  createdAt : Option String
  updatedAt : Option String
deriving Repr, DecidableEq

/-- Argument record of `handleStopLimitOrderSubmission`. -/
structure OrderToSubmit where
  inputToken : String
  outputToken : String
  inputAmount : String
  outputAmount : String
  slippage : Nat
  owner : String
deriving Repr, DecidableEq

/-- Result of `encodeStopLimitOrderSubmissionWithSecret`. -/
structure EncodeResult where
  witness : String
  payload : Payload
  order : StopLimitOrder
deriving Repr, DecidableEq

/-- The execution client (`gelatoStopLimitOrders`): signer presence, and the
outcomes of its asynchronous calls, supplied by the environment. -/
structure Signer where
  send : TxRequest → Except String Tx

/-- The stop-limit execution client: optional signer, and the outcomes of
`encodeStopLimitOrderSubmissionWithSecret` and `cancelLimitOrder`. -/
structure StopLimitClient where
  signer : Option Signer
  encode : OrderToSubmit → Except String EncodeResult
  cancelLimitOrder : StopLimitOrder → Bool → Overrides → Except String Tx

/-- Ambient hook state read by the stop-limit handlers: web3 context,
execution client, and gas price, plus the current wall-clock second. -/
structure HandlersEnv where
  gelatoStopLimitOrders : Option StopLimitClient
  chainId : Option Nat
  account : Option String
  gasPrice : Option Nat
  now : Nat

/-- The history record appended on a successful stop-limit submission:
`{ ...order, createdTxHash: tx.hash.toLowerCase(), witness, status: "open",
updatedAt: now }`. -/
def submissionRecord (order : StopLimitOrder) (w : String) (txHash : String)
    (now : Nat) : StopLimitOrder :=
  { order with
    createdTxHash := some txHash.toLower
    witness := some w
    status := "open"
    updatedAt := some (toString now) }

/-- The history record produced on a successful cancellation:
`{ ...orderToCancel, updatedAt: now, status: "cancelled",
cancelledTxHash: tx.hash.toLowerCase() }`. -/
def cancellationRecord (order : StopLimitOrder) (txHash : String)
    (now : Nat) : StopLimitOrder :=
  { order with
    updatedAt := some (toString now)
    status := "cancelled"
    cancelledTxHash := some txHash.toLower }

/-- External calls performed by `handleStopLimitOrderSubmission`, in order. -/
inductive SubmitEffect where
  | encodeCall (o : OrderToSubmit)
  | sendCall (req : TxRequest)
  | addTx (r : StopLimitOrder)
deriving Repr, DecidableEq

/-- The history records appended (via `addTransaction`) among submission effects. -/
def appendsOf (effs : List SubmitEffect) : List StopLimitOrder :=
  effs.filterMap fun e =>
    match e with
    | .addTx r => some r
    | _ => none

/-- The transaction request dispatched for a submission: the spread of
`overrides ?? { gasPrice }` followed by the payload's `to`, `data`, `value`. -/
def submitRequest (env : HandlersEnv) (overrides : Option Overrides)
    (p : Payload) : TxRequest :=
  { toAddress := p.toAddress
    data := p.data
    value := p.value
    gasPrice := (overrides.getD { gasPrice := env.gasPrice, gasLimit := none }).gasPrice
    gasLimit := (overrides.getD { gasPrice := env.gasPrice, gasLimit := none }).gasLimit }

/-- `handleStopLimitOrderSubmission`: precondition checks (client, chainId,
signer), then encode, dispatch, and on success one history append. -/
def handleStopLimitOrderSubmission (env : HandlersEnv) (orderToSubmit : OrderToSubmit)
    (overrides : Option Overrides) : List SubmitEffect × Except String Tx :=
  match env.gelatoStopLimitOrders with
  | none => ([], .error "Could not reach Gelato Limit Orders library")
  | some client =>
    if jsTruthyNat env.chainId then
      match client.signer with
      | none => ([], .error "No signer")
      | some signer =>
        match client.encode orderToSubmit with
        | .error e => ([.encodeCall orderToSubmit], .error e)
        | .ok res =>
          match signer.send (submitRequest env overrides res.payload) with
          | .error e =>
            ([.encodeCall orderToSubmit,
              .sendCall (submitRequest env overrides res.payload)], .error e)
          | .ok tx =>
            ([.encodeCall orderToSubmit,
              .sendCall (submitRequest env overrides res.payload),
              .addTx (submissionRecord res.order res.witness tx.hash env.now)],
             .ok tx)
    else ([], .error "No chainId")

/-- `checkIfOrderExists`: conjunction of the truthiness of `module`,
`inputToken`, `owner`, `witness`, `data` on the order being cancelled. -/
def checkIfOrderExists (o : StopLimitOrder) : Bool :=
  jsTruthy o.module && jsTruthy o.inputToken && jsTruthy o.owner &&
    jsTruthy o.witness && jsTruthy o.data

/-- External calls performed by `handleStopLimitOrderCancellation`, in order. -/
inductive CancelEffect where
  | cancelCall (order : StopLimitOrder) (existsOnChain : Bool) (ov : Overrides)
  | addTx (r : StopLimitOrder)
deriving Repr, DecidableEq

/-- The history records appended among cancellation effects. -/
def cancelAppendsOf (effs : List CancelEffect) : List StopLimitOrder :=
  effs.filterMap fun e =>
    match e with
    | .addTx r => some r
    | _ => none

/-- The overrides passed to `cancelLimitOrder`:
`overrides ?? { gasPrice, gasLimit: 600000 }`. -/
def cancelOverrides (env : HandlersEnv) (overrides : Option Overrides) : Overrides :=
  overrides.getD { gasPrice := env.gasPrice, gasLimit := some 600000 }

/-- `handleStopLimitOrderCancellation`: precondition checks (client, chainId,
account), `existsOnChain` computation, cancellation dispatch with default
gas-limit override, and on success one "cancelled" history record. -/
def handleStopLimitOrderCancellation (env : HandlersEnv)
    (orderToCancel : StopLimitOrder) (overrides : Option Overrides) :
    List CancelEffect × Except String Tx :=
  match env.gelatoStopLimitOrders with
  | none => ([], .error "Could not reach Gelato Limit Orders library")
  | some client =>
    if jsTruthyNat env.chainId then
      if jsTruthy env.account then
        match client.cancelLimitOrder orderToCancel (checkIfOrderExists orderToCancel)
            (cancelOverrides env overrides) with
        | .error e =>
          ([.cancelCall orderToCancel (checkIfOrderExists orderToCancel)
              (cancelOverrides env overrides)], .error e)
        | .ok tx =>
          ([.cancelCall orderToCancel (checkIfOrderExists orderToCancel)
              (cancelOverrides env overrides),
            .addTx (cancellationRecord orderToCancel tx.hash env.now)],
           .ok tx)
      else ([], .error "No account")
    else ([], .error "No chainId")

/-- A currency as read by the plain limit-order handler: wrapped address,
native flag, decimal count, symbol. -/
structure Currency where
  wrappedAddress : String
  isNative : Bool
  decimals : Nat
  symbol : String
deriving Repr, DecidableEq

/-- A `CurrencyAmount`: an exact fraction `num / den` of raw token units,
together with the currency's decimal count (its decimal scale is
`10 ^ decimals`). `tryParseAmount` results have `den = 1` and
`num = human value * 10 ^ decimals`. -/
structure CurrencyAmount where
  num : Int
  den : Int
  decimals : Nat
deriving Repr, DecidableEq

/-- `divide(other.asFraction)`: fraction division, keeping the receiver's
currency (and hence its decimal scale). -/
def camDivide (a b : CurrencyAmount) : CurrencyAmount :=
  { num := a.num * b.den, den := a.den * b.num, decimals := a.decimals }

/-- `multiply(JSBI 10^d)`: multiply the fraction by an integer power of ten. -/
def camMultiplyPow10 (a : CurrencyAmount) (d : Nat) : CurrencyAmount :=
  { a with num := a.num * 10 ^ d }

/-- Left-pad a digit string with zeros to the given width. -/
def padLeftZeros (s : String) (n : Nat) : String :=
  if s.length ≥ n then s
  else String.mk (List.replicate (n - s.length) '0') ++ s

/-- Drop trailing zero digits of a fractional part. -/
def stripTrailingZeros (s : String) : String :=
  String.mk (s.toList.reverse.dropWhile (fun c => c == '0')).reverse

/-- Render `q / 10 ^ dec` as an exact decimal string (Big.js `div` +
`toFormat` with no group separator): integer part, and a fractional part
only when non-zero, with trailing zeros stripped. -/
def decimalString (q : Int) (dec : Nat) : String :=
  if (q.tmod (10 ^ dec)).natAbs = 0 then toString (q.tdiv (10 ^ dec))
  else toString (q.tdiv (10 ^ dec)) ++ "." ++
    stripTrailingZeros (padLeftZeros (toString (q.tmod (10 ^ dec)).natAbs) dec)

/-- `toExact()`: the quotient of the stored fraction (JSBI truncated
division), rendered over the currency's decimal scale. -/
def camToExact (a : CurrencyAmount) : String :=
  decimalString (a.num.tdiv a.den) a.decimals

/-- `rawAmounts` entry: `currency ? parsed?.multiply(10^decimals).toExact() :
undefined`. -/
def rawAmountOf (currency : Option Currency) (parsed : Option CurrencyAmount) :
    Option String :=
  match currency, parsed with
  | some c, some a => some (camToExact (camMultiplyPow10 a c.decimals))
  | some _, none => none
  | none, _ => none

/-- Modelled from the spec: the sentinel address the execution client uses
for the chain-native currency (`NATIVE` from the constants module, which is
not under the provided sources). Only its identity matters to the claims. -/
def NATIVE : String := "0xEeeeeEeeeEeEeeEeEeEeeEEEeeeeEeeeeeeeEEeE"

/-- Modelled from the spec: `utils.isEthereumChain` of the execution-client
library (not under the provided sources); the Ethereum chains are MAINNET (1)
and ROPSTEN (3), matching the `ChainId` enum of the handler module. On these
chains the execution layer charges no protocol fee. -/
def isEthereumChain (chainId : Nat) : Bool :=
  chainId == 1 || chainId == 3

/-- The token address passed to `submitLimitOrder` for a currency:
the native sentinel for native currencies, else the wrapped address. -/
def currencyAddress (c : Currency) : String :=
  if c.isNative then NATIVE else c.wrappedAddress

/-- The plain limit-order execution client: the protocol-fee-and-slippage
minimum-return adjustment and the outcome of `submitLimitOrder`. -/
structure LimitClient where
  getFeeAndSlippageAdjustedMinReturn : String → String
  submitLimitOrder : String → String → String → String → Except String Tx

/-- Ambient hook state read by `handleLimitOrderSubmission`. -/
structure LimitOrderEnv where
  inputCurrency : Option Currency
  outputCurrency : Option Currency
  parsedInput : Option CurrencyAmount
  parsedOutput : Option CurrencyAmount
  gelatoLimitOrders : Option LimitClient
  chainId : Option Nat
  now : Nat

/-- External calls performed by `handleLimitOrderSubmission`, in order. -/
inductive LimitEffect where
  | submitCall (inputAddr outputAddr inputAmount minReturn : String)
  | addTx (r : StopLimitOrder)
deriving Repr, DecidableEq

/-- The history records appended among plain limit-order submission effects. -/
def limitAppendsOf (effs : List LimitEffect) : List StopLimitOrder :=
  effs.filterMap fun e =>
    match e with
    | .addTx r => some r
    | _ => none

/-- Modelled from the spec: the transaction store (not under the provided
sources) appends, for a plain limit-order submission, one order record with
status "open" whose `createdTxHash` is the dispatched hash lower-cased and
whose identifiers come from the dispatched transaction. -/
def limitSubmissionRecord (tx : Tx) (now : Nat) : StopLimitOrder :=
  { id := tx.hash.toLower
    module := none
    inputToken := none
    outputToken := none
    inputAmount := none
    maxOutputAmount := none
    owner := none
    witness := none
    data := none
    status := "open"
    createdTxHash := some tx.hash.toLower
    cancelledTxHash := none
    createdAt := some (toString now)
    updatedAt := some (toString now) }

/-- The minimum-return amount requested for a plain limit order:
`!utils.isEthereumChain(chainId) ?
getFeeAndSlippageAdjustedMinReturn(rawOutput) : rawOutput`. -/
def minReturnFor (client : LimitClient) (ch : Nat) (rawOut : String) : String :=
  if !(isEthereumChain ch) then client.getFeeAndSlippageAdjustedMinReturn rawOut
  else rawOut

/-- `handleLimitOrderSubmission`: precondition checks (currencies with
addresses, raw amounts, client, chainId), minimum-return computation
(fee-and-slippage adjusted except on Ethereum chains), dispatch through
`submitLimitOrder`, and on success one history append; returns the hash. -/
def handleLimitOrderSubmission (env : LimitOrderEnv) :
    List LimitEffect × Except String String :=
  match env.inputCurrency with
  | none => ([], .error "Invalid input currency")
  | some ci =>
    if ci.wrappedAddress = "" then ([], .error "Invalid input currency")
    else match env.outputCurrency with
    | none => ([], .error "Invalid output currency")
    | some co =>
      if co.wrappedAddress = "" then ([], .error "Invalid output currency")
      else match rawAmountOf (some ci) env.parsedInput with
      | none => ([], .error "Invalid input amount")
      | some rawIn =>
        if rawIn = "" then ([], .error "Invalid input amount")
        else match rawAmountOf (some co) env.parsedOutput with
        | none => ([], .error "Invalid output amount")
        | some rawOut =>
          if rawOut = "" then ([], .error "Invalid output amount")
          else match env.gelatoLimitOrders with
          | none => ([], .error "Could not reach Gelato Limit Orders library")
          | some client =>
            match env.chainId with
            | none => ([], .error "No chainId")
            | some ch =>
              if ch = 0 then ([], .error "No chainId")
              else
                match client.submitLimitOrder (currencyAddress ci)
                    (currencyAddress co) rawIn (minReturnFor client ch rawOut) with
                | .error e =>
                  ([.submitCall (currencyAddress ci) (currencyAddress co) rawIn
                      (minReturnFor client ch rawOut)], .error e)
                | .ok tx =>
                  ([.submitCall (currencyAddress ci) (currencyAddress co) rawIn
                      (minReturnFor client ch rawOut),
                    .addTx (limitSubmissionRecord tx env.now)],
                   .ok tx.hash)

/-- Floor of the base-10 logarithm of a positive rational. -/
def floorLog10 (q : ℚ) : ℤ :=
  let n := q.num.natAbs
  let d := q.den
  if n ≥ d then (Nat.log 10 (n / d) : ℤ)
  else -(((Nat.log 10 ((d - 1) / n)) + 1 : ℕ) : ℤ)

/-- Round a rational to the nearest integer, halves away from zero
(decimal.js ROUND_HALF_UP on non-negative input). -/
def roundHalfUp (q : ℚ) : ℤ := ⌊q + 1 / 2⌋

/-- `toSignificant(6)` of the sdk's fractions: round to six significant
decimal digits (half up); the result is the rounded numeric value. -/
def toSignificant6 (q : ℚ) : ℚ :=
  if q = 0 then 0
  else
    let s : ℤ := 5 - floorLog10 |q|
    let scaled : ℤ := roundHalfUp (|q| * (10 : ℚ) ^ s)
    (if q > 0 then 1 else -1) * ((scaled : ℚ) / (10 : ℚ) ^ s)

/-- Rate orientation: MUL displays output per input, DIV input per output. -/
inductive Rate where
  | MUL
  | DIV
deriving Repr, DecidableEq

/-- Stop-limit `handleRateType`: given the current rate type and the current
(canonical-orientation) price, seed the price field with the price expressed
in the opposite orientation at six significant digits and flip the rate
type. Returns (new rate type, seeded price-field value). -/
def handleRateTypeStopLimit (rateType : Rate) (price : Option ℚ) :
    Rate × Option ℚ :=
  match rateType with
  | .MUL => (Rate.DIV, price.map fun p => toSignificant6 p⁻¹)
  | .DIV => (Rate.MUL, price.map fun p => toSignificant6 p)

/-- The price shown in the price field for canonical price `p` under rate
type `r`: `p` itself in MUL mode, its inverse in DIV mode, at six
significant digits of display precision. -/
def displayedPrice (r : Rate) (p : ℚ) : ℚ :=
  match r with
  | .MUL => toSignificant6 p
  | .DIV => toSignificant6 p⁻¹

/-- `toSignificant(6)` of a `CurrencyAmount`: the stored fraction over the
currency's decimal scale, rounded to six significant digits. -/
def camToSignificant6 (a : CurrencyAmount) : ℚ :=
  toSignificant6 ((a.num : ℚ) / (a.den : ℚ) / 10 ^ a.decimals)

/-- The human-unit value of a `CurrencyAmount`: its fraction divided by the
decimal scale. -/
def humanVal (a : CurrencyAmount) : ℚ :=
  (a.num : ℚ) / (a.den : ℚ) / 10 ^ a.decimals

/-- Plain limit-order `handleRateType`: recompute the displayed price in the
opposite orientation from the parsed amounts (`input/output` scaled by the
output currency's decimals when leaving MUL, `output/input` scaled by the
input currency's decimals when leaving DIV), at six significant digits, flip
the rate type, and seed the price field when the value is derivable. -/
def handleRateTypeLimit (rateType : Rate)
    (parsedInput parsedOutput : Option CurrencyAmount)
    (inputCurrency outputCurrency : Option Currency) : Rate × Option ℚ :=
  match rateType with
  | .MUL =>
    let flipped : Option ℚ :=
      match parsedInput, parsedOutput, outputCurrency with
      | some i, some o, some oc =>
        some (camToSignificant6 (camMultiplyPow10 (camDivide i o) oc.decimals))
      | _, _, _ => none
    (Rate.DIV, flipped)
  | .DIV =>
    let flipped : Option ℚ :=
      match parsedInput, parsedOutput, inputCurrency with
      | some i, some o, some ic =>
        some (camToSignificant6 (camMultiplyPow10 (camDivide o i) ic.decimals))
      | _, _, _ => none
    (Rate.MUL, flipped)

/-- The price displayed for parsed amounts `i`, `o` under rate type `r` in
the plain limit-order panel: output per input in MUL mode, input per output
in DIV mode, in human units at six significant digits. -/
def limitDisplayedPrice (r : Rate) (i o : CurrencyAmount) : ℚ :=
  match r with
  | .MUL => toSignificant6 (humanVal o / humanVal i)
  | .DIV => toSignificant6 (humanVal i / humanVal o)

/-- The constructed stoploss execution client (`GelatoStoplossOrders`). -/
structure StoplossClient where
  chainId : Nat
  handler : String
deriving Repr, DecidableEq

/-- Environment of `useGelatoStoplossOrdersLib`: optional chain id, optional
provider library, and the outcome of the `GelatoStoplossOrders` constructor
for a given chain id and handler name (an exception or a client). -/
structure StoplossEnv where
  chainId : Option Nat
  library : Option Unit
  construct : Nat → String → Except String StoplossClient

/-- `useGelatoStoplossOrdersLib`: returns the client when chain id and
library are present and the constructor succeeds; returns `undefined`
(`none`) when either is absent, and also when the constructor throws (the
exception is caught and logged, never propagated). -/
def useGelatoStoplossOrdersLib (env : StoplossEnv) : Option StoplossClient :=
  match env.chainId, env.library with
  | some c, some _ =>
    if c = 0 then none
    else
      match env.construct c "quickswap_stoploss" with
      | .ok client => some client
      | .error _ => none
  | _, _ => none

/-- Lookup in the history by unique record identifier (first match). -/
def findRecord : List StopLimitOrder → String → Option StopLimitOrder
  | [], _ => none
  | r :: t, i => if r.id == i then some r else findRecord t i

/-- Patch the first record with the given identifier, leaving the rest. -/
def patchRecord : List StopLimitOrder → String → StopLimitOrder → List StopLimitOrder
  | [], _, _ => []
  | r :: t, i, r2 => if r.id == i then r2 :: t else r :: patchRecord t i r2

/-- Modelled from the spec: the operations of the history store (not under
the provided sources) — `append(record)` and the cancellation patch
`patch(id, fields)`, which requires the record to already exist. -/
inductive HistOp where
  | append (r : StopLimitOrder)
  | patchCancelled (i : String) (txHash : String) (now : Nat)
deriving Repr, DecidableEq

/-- Modelled from the spec: apply one history-store operation; a cancellation
patch fails (is not applied) unless the identifier lookup finds the record. -/
def applyHistOp (h : List StopLimitOrder) : HistOp → Option (List StopLimitOrder)
  | .append r => some (h ++ [r])
  | .patchCancelled i txHash now =>
    match findRecord h i with
    | none => none
    | some r => some (patchRecord h i (cancellationRecord r txHash now))

/-- Run a sequence of history-store operations; fails if any operation fails. -/
def runHistOps : List StopLimitOrder → List HistOp → Option (List StopLimitOrder)
  | h, [] => some h
  | h, op :: rest =>
    match applyHistOp h op with
    | none => none
    | some h2 => runHistOps h2 rest

/-- A handler operation against the history: a submission (appending the
open record built by `handleStopLimitOrderSubmission`, under a fresh
witness-derived identifier) or a cancellation (patching the record found by
identifier to the record built by `handleStopLimitOrderCancellation`). -/
inductive HandlerOp where
  | submit (order : StopLimitOrder) (w : String) (txHash : String) (now : Nat)
  | cancel (i : String) (txHash : String) (now : Nat)
deriving Repr, DecidableEq

/-- Modelled from the spec: the step the history store takes for one handler
operation; a submission requires a fresh identifier (freshly generated
witness), a cancellation requires the record to exist. -/
def applyHandlerOp (h : List StopLimitOrder) : HandlerOp → Option (List StopLimitOrder)
  | .submit order w txHash now =>
    let r := submissionRecord order w txHash now
    match findRecord h r.id with
    | some _ => none
    | none => some (h ++ [r])
  | .cancel i txHash now =>
    match findRecord h i with
    | none => none
    | some r => some (patchRecord h i (cancellationRecord r txHash now))

/-- Run a sequence of handler operations against the history. -/
def runHandlerOps : List StopLimitOrder → List HandlerOp → Option (List StopLimitOrder)
  | h, [] => some h
  | h, op :: rest =>
    match applyHandlerOp h op with
    | none => none
    | some h2 => runHandlerOps h2 rest

theorem findRecord_eq_id {h : List StopLimitOrder} {i : String} {r : StopLimitOrder}
    (hf : findRecord h i = some r) : r.id = i := by
  induction h with
  | nil => simp [findRecord] at hf
  | cons x t ih =>
    simp only [findRecord, beq_iff_eq] at hf
    by_cases hx : x.id = i
    · simp [hx] at hf
      rw [← hf]
      exact hx
    · simp [hx] at hf
      exact ih hf

theorem findRecord_append_some {h : List StopLimitOrder} {i : String}
    {r : StopLimitOrder} (l : List StopLimitOrder)
    (hf : findRecord h i = some r) : findRecord (h ++ l) i = some r := by
  induction h with
  | nil => simp [findRecord] at hf
  | cons x t ih =>
    simp only [findRecord, beq_iff_eq] at hf ⊢
    by_cases hx : x.id = i
    · simp [hx] at hf ⊢
      exact hf
    · simp [hx] at hf ⊢
      exact ih hf

theorem findRecord_append_none {h : List StopLimitOrder} {i : String}
    (x : StopLimitOrder) (hf : findRecord h i = none) :
    findRecord (h ++ [x]) i = if x.id = i then some x else none := by
  induction h with
  | nil => simp [findRecord]
  | cons y t ih =>
    simp only [findRecord, beq_iff_eq] at hf ⊢
    by_cases hy : y.id = i
    · simp [hy] at hf
    · simp [hy] at hf ⊢
      exact ih hf

theorem findRecord_patch_some {h : List StopLimitOrder} {i pid : String}
    {r r2 : StopLimitOrder} (hid : r2.id = pid)
    (hf : findRecord h i = some r) :
    findRecord (patchRecord h pid r2) i = some r ∨
      (r.id = pid ∧ findRecord (patchRecord h pid r2) i = some r2) := by
  induction h with
  | nil => simp [findRecord] at hf
  | cons x t ih =>
    simp only [findRecord, beq_iff_eq] at hf
    simp only [patchRecord, beq_iff_eq]
    by_cases hxp : x.id = pid
    · simp only [hxp, if_pos rfl]
      by_cases hxi : x.id = i
      · simp [hxi] at hf
        right
        refine ⟨by rw [hf] at hxp; exact hxp, ?_⟩
        have : r2.id = i := by rw [hid, ← hxp, hxi]
        simp [findRecord, this]
      · simp [hxi] at hf
        left
        have : ¬ r2.id = i := by rw [hid, ← hxp]; exact hxi
        simp [findRecord, this]
        exact hf
    · simp only [hxp, if_neg hxp]
      by_cases hxi : x.id = i
      · simp [hxi] at hf
        left
        simp [findRecord, hxi]
        exact hf
      · simp [hxi] at hf
        rcases ih hf with hl | ⟨hrp, hr⟩
        · left
          simp [findRecord, hxi]
          exact hl
        · right
          refine ⟨hrp, ?_⟩
          simp [findRecord, hxi]
          exact hr

theorem findRecord_patch_none {h : List StopLimitOrder} {i pid : String}
    {r2 : StopLimitOrder} (hid : r2.id = pid)
    (hf : findRecord h i = none) :
    findRecord (patchRecord h pid r2) i = none := by
  induction h with
  | nil => simp [findRecord, patchRecord]
  | cons x t ih =>
    simp only [findRecord, beq_iff_eq] at hf
    simp only [patchRecord, beq_iff_eq]
    by_cases hxi : x.id = i
    · simp [hxi] at hf
    · simp [hxi] at hf
      by_cases hxp : x.id = pid
      · simp only [hxp, if_pos rfl]
        have : ¬ r2.id = i := by rw [hid, ← hxp]; exact hxi
        simp [findRecord, this]
        exact hf
      · simp only [if_neg hxp]
        simp [findRecord, hxi]
        exact ih hf

theorem applyHandlerOp_mono {h h2 : List StopLimitOrder} {op : HandlerOp}
    {i : String} {r : StopLimitOrder}
    (happ : applyHandlerOp h op = some h2) (hf : findRecord h i = some r) :
    ∃ r2, findRecord h2 i = some r2 ∧
      (r2 = r ∨ ∃ txh n, r2 = cancellationRecord r txh n) := by
  cases op with
  | submit order w txHash now =>
    simp only [applyHandlerOp] at happ
    rcases hfr : findRecord h (submissionRecord order w txHash now).id with _ | y
    · rw [hfr] at happ
      simp at happ
      rw [← happ]
      exact ⟨r, findRecord_append_some _ hf, Or.inl rfl⟩
    · rw [hfr] at happ
      simp at happ
  | cancel pid txHash now =>
    simp only [applyHandlerOp] at happ
    rcases hfr : findRecord h pid with _ | y
    · rw [hfr] at happ
      simp at happ
    · rw [hfr] at happ
      simp at happ
      have hy : (cancellationRecord y txHash now).id = pid := by
        have := findRecord_eq_id hfr
        simpa [cancellationRecord] using this
      rw [← happ]
      rcases findRecord_patch_some hy hf with hl | ⟨hrp, hr⟩
      · exact ⟨r, hl, Or.inl rfl⟩
      · have hri : r.id = i := findRecord_eq_id hf
        have : i = pid := by rw [← hri, hrp]
        rw [this] at hf
        have hyr : y = r := by
          rw [hfr] at hf
          exact Option.some.inj hf
        subst hyr
        exact ⟨cancellationRecord y txHash now, hr, Or.inr ⟨txHash, now, rfl⟩⟩

theorem applyHandlerOp_new {h h2 : List StopLimitOrder} {op : HandlerOp}
    {i : String} {r2 : StopLimitOrder}
    (happ : applyHandlerOp h op = some h2) (hnone : findRecord h i = none)
    (hf2 : findRecord h2 i = some r2) : r2.status = "open" := by
  cases op with
  | submit order w txHash now =>
    simp only [applyHandlerOp] at happ
    rcases hfr : findRecord h (submissionRecord order w txHash now).id with _ | y
    · rw [hfr] at happ
      simp at happ
      rw [← happ] at hf2
      rw [findRecord_append_none _ hnone] at hf2
      by_cases hx : (submissionRecord order w txHash now).id = i
      · rw [if_pos hx] at hf2
        have := Option.some.inj hf2
        rw [← this]
        rfl
      · rw [if_neg hx] at hf2
        exact absurd hf2 (by simp)
    · rw [hfr] at happ
      simp at happ
  | cancel pid txHash now =>
    simp only [applyHandlerOp] at happ
    rcases hfr : findRecord h pid with _ | y
    · rw [hfr] at happ
      simp at happ
    · rw [hfr] at happ
      simp at happ
      have hy : (cancellationRecord y txHash now).id = pid := by
        have := findRecord_eq_id hfr
        simpa [cancellationRecord] using this
      rw [← happ] at hf2
      rw [findRecord_patch_none hy hnone] at hf2
      exact absurd hf2 (by simp)

theorem runHandlerOps_mono {ops : List HandlerOp} :
    ∀ {h h2 : List StopLimitOrder} {i : String} {r : StopLimitOrder},
    runHandlerOps h ops = some h2 → findRecord h i = some r →
    ∃ r2, findRecord h2 i = some r2 ∧
      (r2.status = r.status ∨ r2.status = "cancelled") := by
  induction ops with
  | nil =>
    intro h h2 i r hrun hf
    simp [runHandlerOps] at hrun
    rw [← hrun]
    exact ⟨r, hf, Or.inl rfl⟩
  | cons op rest ih =>
    intro h h2 i r hrun hf
    simp only [runHandlerOps] at hrun
    rcases happ : applyHandlerOp h op with _ | hm
    · rw [happ] at hrun
      simp at hrun
    · rw [happ] at hrun
      simp at hrun
      obtain ⟨rm, hfm, hcase⟩ := applyHandlerOp_mono happ hf
      obtain ⟨r2, hf2, hcase2⟩ := ih hrun hfm
      refine ⟨r2, hf2, ?_⟩
      rcases hcase with hrm | ⟨txh, n, hrm⟩
      · rw [hrm] at hcase2
        exact hcase2
      · rcases hcase2 with h1 | h1
        · rw [h1, hrm]
          right
          rfl
        · exact Or.inr h1

theorem runHistOps_split {l1 l2 : List HistOp} :
    ∀ {h h2 : List StopLimitOrder},
    runHistOps h (l1 ++ l2) = some h2 →
    ∃ hm, runHistOps h l1 = some hm ∧ runHistOps hm l2 = some h2 := by
  induction l1 with
  | nil =>
    intro h h2 hrun
    exact ⟨h, rfl, hrun⟩
  | cons op rest ih =>
    intro h h2 hrun
    simp only [List.cons_append, runHistOps] at hrun ⊢
    rcases happ : applyHistOp h op with _ | hm
    · rw [happ] at hrun
      simp at hrun
    · rw [happ] at hrun
      exact ih hrun

theorem runHistOps_id_origin {l : List HistOp} :
    ∀ {h h2 : List StopLimitOrder} {i : String} {r2 : StopLimitOrder},
    runHistOps h l = some h2 → findRecord h2 i = some r2 →
    (∃ r0, findRecord h i = some r0) ∨
      ∃ r, HistOp.append r ∈ l ∧ r.id = i := by
  induction l with
  | nil =>
    intro h h2 i r2 hrun hf2
    simp [runHistOps] at hrun
    rw [← hrun] at hf2
    exact Or.inl ⟨r2, hf2⟩
  | cons op rest ih =>
    intro h h2 i r2 hrun hf2
    simp only [runHistOps] at hrun
    rcases happ : applyHistOp h op with _ | hm
    · rw [happ] at hrun
      simp at hrun
    · rw [happ] at hrun
      rcases ih hrun hf2 with ⟨r0, hr0⟩ | ⟨r, hmem, hri⟩
      · cases op with
        | append r =>
          simp only [applyHistOp] at happ
          simp at happ
          rw [← happ] at hr0
          rcases hfh : findRecord h i with _ | y
          · rw [findRecord_append_none _ hfh] at hr0
            by_cases hx : r.id = i
            · exact Or.inr ⟨r, List.mem_cons_self _ _, hx⟩
            · rw [if_neg hx] at hr0
              exact absurd hr0 (by simp)
          · exact Or.inl ⟨y, rfl⟩
        | patchCancelled pid txHash now =>
          simp only [applyHistOp] at happ
          rcases hfr : findRecord h pid with _ | y
          · rw [hfr] at happ
            simp at happ
          · rw [hfr] at happ
            simp at happ
            have hy : (cancellationRecord y txHash now).id = pid := by
              have := findRecord_eq_id hfr
              simpa [cancellationRecord] using this
            rcases hfh : findRecord h i with _ | z
            · rw [← happ] at hr0
              rw [findRecord_patch_none hy hfh] at hr0
              exact absurd hr0 (by simp)
            · exact Or.inl ⟨z, rfl⟩
      · exact Or.inr ⟨r, List.mem_cons_of_mem _ hmem, hri⟩


/-- Claim C1: a submission call that completes successfully appends exactly
one order record with status "open" whose `createdTxHash` is the dispatched
transaction's hash lower-cased; a submission call that fails appends zero
records. Stated for both the stop-limit and the plain limit-order
submission handlers. -/
theorem claim_c1_submission_append_contract :
    (∀ (env : HandlersEnv) (o : OrderToSubmit) (ov : Option Overrides)
        (effs : List SubmitEffect) (tx : Tx),
      handleStopLimitOrderSubmission env o ov = (effs, .ok tx) →
      ∃ r, appendsOf effs = [r] ∧ r.status = "open" ∧
        r.createdTxHash = some tx.hash.toLower) ∧
    (∀ (env : HandlersEnv) (o : OrderToSubmit) (ov : Option Overrides)
        (effs : List SubmitEffect) (e : String),
      handleStopLimitOrderSubmission env o ov = (effs, .error e) →
      appendsOf effs = []) ∧
    (∀ (env : LimitOrderEnv) (effs : List LimitEffect) (hash : String),
      handleLimitOrderSubmission env = (effs, .ok hash) →
      ∃ r, limitAppendsOf effs = [r] ∧ r.status = "open" ∧
        r.createdTxHash = some hash.toLower) ∧
    (∀ (env : LimitOrderEnv) (effs : List LimitEffect) (e : String),
      handleLimitOrderSubmission env = (effs, .error e) →
      limitAppendsOf effs = []) := by
  refine ⟨?_, ?_, ?_, ?_⟩
  · intro env o ov effs tx hEq
    unfold handleStopLimitOrderSubmission at hEq
    repeat' split at hEq
    all_goals rw [Prod.mk.injEq] at hEq
    all_goals try exact Except.noConfusion hEq.2
    obtain ⟨hEffs, hTx⟩ := hEq
    have htx0 := Except.ok.inj hTx
    subst hEffs
    subst htx0
    exact ⟨_, rfl, rfl, rfl⟩
  · intro env o ov effs e hEq
    unfold handleStopLimitOrderSubmission at hEq
    repeat' split at hEq
    all_goals rw [Prod.mk.injEq] at hEq
    all_goals try exact Except.noConfusion hEq.2
    all_goals obtain ⟨hEffs, hE⟩ := hEq
    all_goals subst hEffs
    all_goals rfl
  · intro env effs hash hEq
    unfold handleLimitOrderSubmission at hEq
    repeat' split at hEq
    all_goals rw [Prod.mk.injEq] at hEq
    all_goals try exact Except.noConfusion hEq.2
    obtain ⟨hEffs, hHash⟩ := hEq
    have hh := Except.ok.inj hHash
    subst hEffs
    subst hh
    exact ⟨_, rfl, rfl, rfl⟩
  · intro env effs e hEq
    unfold handleLimitOrderSubmission at hEq
    repeat' split at hEq
    all_goals rw [Prod.mk.injEq] at hEq
    all_goals try exact Except.noConfusion hEq.2
    all_goals obtain ⟨hEffs, hE⟩ := hEq
    all_goals subst hEffs
    all_goals rfl

/-- A concrete order record used to exercise the theorems. -/
def c1Order : StopLimitOrder :=
  { id := "ord1", module := some "m", inputToken := some "ti"
    outputToken := some "to2", inputAmount := some "5"
    maxOutputAmount := some "9", owner := some "ow", witness := some "w"
    data := some "d", status := "open", createdTxHash := none
    cancelledTxHash := none, createdAt := none, updatedAt := none }

/-- A concrete stop-limit client whose calls all succeed. -/
def c1Client : StopLimitClient :=
  { signer := some { send := fun _ => .ok { hash := "0xAbC" } }
    encode := fun _ =>
      .ok { witness := "w1"
            payload := { toAddress := "T", data := "D", value := "0" }
            order := c1Order }
    cancelLimitOrder := fun _ _ _ => .ok { hash := "0xDeF" } }

/-- A concrete environment in which submission succeeds. -/
def c1Env : HandlersEnv :=
  { gelatoStopLimitOrders := some c1Client, chainId := some 137
    account := some "acct", gasPrice := some 5, now := 100 }

/-- A concrete environment with no execution client. -/
def c1EnvFail : HandlersEnv :=
  { gelatoStopLimitOrders := none, chainId := some 137
    account := some "acct", gasPrice := some 5, now := 100 }

/-- A concrete order-to-submit argument. -/
def c1Submit : OrderToSubmit :=
  { inputToken := "a", outputToken := "b", inputAmount := "1"
    outputAmount := "2", slippage := 0, owner := "ow" }

/-- A concrete plain limit-order environment in which submission succeeds. -/
def c1LimitEnv : LimitOrderEnv :=
  { inputCurrency := some { wrappedAddress := "0xIN", isNative := false, decimals := 2, symbol := "A" }
    outputCurrency := some { wrappedAddress := "0xOUT", isNative := false, decimals := 3, symbol := "B" }
    parsedInput := some { num := 100, den := 1, decimals := 2 }
    parsedOutput := some { num := 2000, den := 1, decimals := 3 }
    gelatoLimitOrders := some
      { getFeeAndSlippageAdjustedMinReturn := fun s => s
        submitLimitOrder := fun _ _ _ _ => .ok { hash := "0xLiM" } }
    chainId := some 137, now := 100 }

/-- A concrete plain limit-order environment with no input currency. -/
def c1LimitEnvFail : LimitOrderEnv :=
  { c1LimitEnv with inputCurrency := none }

/-- Witness for C1: the append contract evaluated at the concrete
environments, one successful and one failing run per handler. -/
theorem claim_c1_submission_append_contract_witness :
    (∃ r, appendsOf (handleStopLimitOrderSubmission c1Env c1Submit none).1 = [r] ∧
      r.status = "open" ∧
      r.createdTxHash = some (Tx.mk "0xAbC").hash.toLower) ∧
    appendsOf (handleStopLimitOrderSubmission c1EnvFail c1Submit none).1 = [] ∧
    (∃ r, limitAppendsOf (handleLimitOrderSubmission c1LimitEnv).1 = [r] ∧
      r.status = "open" ∧
      r.createdTxHash = some (Tx.mk "0xLiM").hash.toLower) ∧
    limitAppendsOf (handleLimitOrderSubmission c1LimitEnvFail).1 = [] := by
  refine ⟨?_, ?_, ?_, ?_⟩
  · exact claim_c1_submission_append_contract.1 c1Env c1Submit none _ (Tx.mk "0xAbC") rfl
  · exact claim_c1_submission_append_contract.2.1 c1EnvFail c1Submit none _
      "Could not reach Gelato Limit Orders library" rfl
  · exact claim_c1_submission_append_contract.2.2.1 c1LimitEnv _ (Tx.mk "0xLiM").hash rfl
  · exact claim_c1_submission_append_contract.2.2.2 c1LimitEnvFail _
      "Invalid input currency" rfl

/-- Claim C2: every cancellation call that passes the context preconditions
computes `existsOnChain` as the conjunction of the order's `module`,
`inputToken`, `owner`, `witness` and `data` fields being set, and attempts
the cancellation call with that flag passed through to the execution client
— in particular, for a record with a missing field the flag is false and
the call is still attempted rather than rejected locally. -/
theorem claim_c2_exists_on_chain_flag :
    ∀ (env : HandlersEnv) (o : StopLimitOrder) (ov : Option Overrides)
      (cl : StopLimitClient),
      env.gelatoStopLimitOrders = some cl →
      jsTruthyNat env.chainId = true →
      jsTruthy env.account = true →
      (∃ rest res,
        handleStopLimitOrderCancellation env o ov =
          (CancelEffect.cancelCall o (checkIfOrderExists o)
            (cancelOverrides env ov) :: rest, res)) ∧
      checkIfOrderExists o =
        (jsTruthy o.module && jsTruthy o.inputToken && jsTruthy o.owner &&
          jsTruthy o.witness && jsTruthy o.data) ∧
      (o.witness = none → checkIfOrderExists o = false) := by
  intro env o ov cl hcl hch hac
  refine ⟨?_, rfl, ?_⟩
  · unfold handleStopLimitOrderCancellation
    rw [hcl]
    simp only [hch, if_true, hac]
    rcases hc : cl.cancelLimitOrder o (checkIfOrderExists o) (cancelOverrides env ov)
      with e | tx
    · exact ⟨_, _, rfl⟩
    · exact ⟨_, _, rfl⟩
  · intro hw
    simp [checkIfOrderExists, jsTruthy, hw]

/-- A concrete order record with no `witness` field. -/
def c2Order : StopLimitOrder := { c1Order with witness := none }

/-- Witness for C2: a concrete cancellation of a record with no `witness`
field still reaches the execution client, with `existsOnChain = false`. -/
theorem claim_c2_exists_on_chain_flag_witness :
    (∃ rest res,
      handleStopLimitOrderCancellation c1Env c2Order none =
        (CancelEffect.cancelCall c2Order (checkIfOrderExists c2Order)
          (cancelOverrides c1Env none) :: rest, res)) ∧
    checkIfOrderExists c2Order =
      (jsTruthy c2Order.module && jsTruthy c2Order.inputToken &&
        jsTruthy c2Order.owner && jsTruthy c2Order.witness &&
        jsTruthy c2Order.data) ∧
    (c2Order.witness = none → checkIfOrderExists c2Order = false) := by
  exact claim_c2_exists_on_chain_flag c1Env c2Order none c1Client rfl rfl rfl

/-- Claim C3: a successfully dispatched cancellation produces exactly one
history record, equal to the input record except that its status is
"cancelled", its `cancelledTxHash` is the dispatched transaction's hash
lower-cased, and its timestamp is updated; all other fields (identifier,
tokens, amounts, owner, witness, data, createdTxHash, createdAt) are
unchanged. -/
theorem claim_c3_cancellation_frame :
    ∀ (env : HandlersEnv) (o : StopLimitOrder) (ov : Option Overrides)
      (effs : List CancelEffect) (tx : Tx),
      handleStopLimitOrderCancellation env o ov = (effs, .ok tx) →
      cancelAppendsOf effs = [cancellationRecord o tx.hash env.now] ∧
      (cancellationRecord o tx.hash env.now).status = "cancelled" ∧
      (cancellationRecord o tx.hash env.now).cancelledTxHash =
        some tx.hash.toLower ∧
      (cancellationRecord o tx.hash env.now).updatedAt =
        some (toString env.now) ∧
      (cancellationRecord o tx.hash env.now).id = o.id ∧
      (cancellationRecord o tx.hash env.now).module = o.module ∧
      (cancellationRecord o tx.hash env.now).inputToken = o.inputToken ∧
      (cancellationRecord o tx.hash env.now).outputToken = o.outputToken ∧
      (cancellationRecord o tx.hash env.now).inputAmount = o.inputAmount ∧
      (cancellationRecord o tx.hash env.now).maxOutputAmount = o.maxOutputAmount ∧
      (cancellationRecord o tx.hash env.now).owner = o.owner ∧
      (cancellationRecord o tx.hash env.now).witness = o.witness ∧
      (cancellationRecord o tx.hash env.now).data = o.data ∧
      (cancellationRecord o tx.hash env.now).createdTxHash = o.createdTxHash ∧
      (cancellationRecord o tx.hash env.now).createdAt = o.createdAt := by
  intro env o ov effs tx hEq
  unfold handleStopLimitOrderCancellation at hEq
  repeat' split at hEq
  all_goals rw [Prod.mk.injEq] at hEq
  all_goals try exact Except.noConfusion hEq.2
  obtain ⟨hEffs, hTx⟩ := hEq
  have htx0 := Except.ok.inj hTx
  subst hEffs
  subst htx0
  exact ⟨rfl, rfl, rfl, rfl, rfl, rfl, rfl, rfl, rfl, rfl, rfl, rfl, rfl, rfl, rfl⟩

/-- Witness for C3: the cancellation frame contract evaluated on a concrete
successful cancellation. -/
theorem claim_c3_cancellation_frame_witness :
    cancelAppendsOf (handleStopLimitOrderCancellation c1Env c1Order none).1 =
      [cancellationRecord c1Order (Tx.mk "0xDeF").hash c1Env.now] ∧
    (cancellationRecord c1Order (Tx.mk "0xDeF").hash c1Env.now).status = "cancelled" ∧
    (cancellationRecord c1Order (Tx.mk "0xDeF").hash c1Env.now).cancelledTxHash =
      some (Tx.mk "0xDeF").hash.toLower ∧
    (cancellationRecord c1Order (Tx.mk "0xDeF").hash c1Env.now).updatedAt =
      some (toString c1Env.now) ∧
    (cancellationRecord c1Order (Tx.mk "0xDeF").hash c1Env.now).id = c1Order.id ∧
    (cancellationRecord c1Order (Tx.mk "0xDeF").hash c1Env.now).module = c1Order.module ∧
    (cancellationRecord c1Order (Tx.mk "0xDeF").hash c1Env.now).inputToken = c1Order.inputToken ∧
    (cancellationRecord c1Order (Tx.mk "0xDeF").hash c1Env.now).outputToken = c1Order.outputToken ∧
    (cancellationRecord c1Order (Tx.mk "0xDeF").hash c1Env.now).inputAmount = c1Order.inputAmount ∧
    (cancellationRecord c1Order (Tx.mk "0xDeF").hash c1Env.now).maxOutputAmount = c1Order.maxOutputAmount ∧
    (cancellationRecord c1Order (Tx.mk "0xDeF").hash c1Env.now).owner = c1Order.owner ∧
    (cancellationRecord c1Order (Tx.mk "0xDeF").hash c1Env.now).witness = c1Order.witness ∧
    (cancellationRecord c1Order (Tx.mk "0xDeF").hash c1Env.now).data = c1Order.data ∧
    (cancellationRecord c1Order (Tx.mk "0xDeF").hash c1Env.now).createdTxHash = c1Order.createdTxHash ∧
    (cancellationRecord c1Order (Tx.mk "0xDeF").hash c1Env.now).createdAt = c1Order.createdAt := by
  exact claim_c3_cancellation_frame c1Env c1Order none _ (Tx.mk "0xDeF") rfl

/-- Claim C5: every submission call in which a precondition fails (execution
client unavailable, missing chain id, missing signer, missing currency or
missing amount) returns the corresponding named error with an empty effect
list: no transaction is dispatched and no history record is appended. -/
theorem claim_c5_precondition_failures :
    (∀ (env : HandlersEnv) (o : OrderToSubmit) (ov : Option Overrides),
      env.gelatoStopLimitOrders = none →
      handleStopLimitOrderSubmission env o ov =
        ([], .error "Could not reach Gelato Limit Orders library")) ∧
    (∀ (env : HandlersEnv) (o : OrderToSubmit) (ov : Option Overrides)
        (cl : StopLimitClient),
      env.gelatoStopLimitOrders = some cl →
      jsTruthyNat env.chainId = false →
      handleStopLimitOrderSubmission env o ov = ([], .error "No chainId")) ∧
    (∀ (env : HandlersEnv) (o : OrderToSubmit) (ov : Option Overrides)
        (cl : StopLimitClient),
      env.gelatoStopLimitOrders = some cl →
      jsTruthyNat env.chainId = true →
      cl.signer = none →
      handleStopLimitOrderSubmission env o ov = ([], .error "No signer")) ∧
    (∀ (env : LimitOrderEnv),
      env.inputCurrency = none →
      handleLimitOrderSubmission env = ([], .error "Invalid input currency")) ∧
    (∀ (env : LimitOrderEnv) (ci : Currency),
      env.inputCurrency = some ci →
      ci.wrappedAddress ≠ "" →
      env.outputCurrency = none →
      handleLimitOrderSubmission env = ([], .error "Invalid output currency")) ∧
    (∀ (env : LimitOrderEnv) (ci co : Currency),
      env.inputCurrency = some ci →
      ci.wrappedAddress ≠ "" →
      env.outputCurrency = some co →
      co.wrappedAddress ≠ "" →
      env.parsedInput = none →
      handleLimitOrderSubmission env = ([], .error "Invalid input amount")) ∧
    (∀ (env : LimitOrderEnv) (ci co : Currency) (rawIn : String),
      env.inputCurrency = some ci →
      ci.wrappedAddress ≠ "" →
      env.outputCurrency = some co →
      co.wrappedAddress ≠ "" →
      rawAmountOf (some ci) env.parsedInput = some rawIn →
      rawIn ≠ "" →
      env.parsedOutput = none →
      handleLimitOrderSubmission env = ([], .error "Invalid output amount")) ∧
    (∀ (env : LimitOrderEnv) (ci co : Currency) (rawIn rawOut : String),
      env.inputCurrency = some ci →
      ci.wrappedAddress ≠ "" →
      env.outputCurrency = some co →
      co.wrappedAddress ≠ "" →
      rawAmountOf (some ci) env.parsedInput = some rawIn →
      rawIn ≠ "" →
      rawAmountOf (some co) env.parsedOutput = some rawOut →
      rawOut ≠ "" →
      env.gelatoLimitOrders = none →
      handleLimitOrderSubmission env =
        ([], .error "Could not reach Gelato Limit Orders library")) ∧
    (∀ (env : LimitOrderEnv) (ci co : Currency) (rawIn rawOut : String)
        (cl : LimitClient),
      env.inputCurrency = some ci →
      ci.wrappedAddress ≠ "" →
      env.outputCurrency = some co →
      co.wrappedAddress ≠ "" →
      rawAmountOf (some ci) env.parsedInput = some rawIn →
      rawIn ≠ "" →
      rawAmountOf (some co) env.parsedOutput = some rawOut →
      rawOut ≠ "" →
      env.gelatoLimitOrders = some cl →
      env.chainId = none →
      handleLimitOrderSubmission env = ([], .error "No chainId")) := by
  refine ⟨?_, ?_, ?_, ?_, ?_, ?_, ?_, ?_, ?_⟩
  · intro env o ov h
    simp [handleStopLimitOrderSubmission, h]
  · intro env o ov cl h1 h2
    simp [handleStopLimitOrderSubmission, h1, h2]
  · intro env o ov cl h1 h2 h3
    simp [handleStopLimitOrderSubmission, h1, h2, h3]
  · intro env h
    simp [handleLimitOrderSubmission, h]
  · intro env ci h1 h2 h3
    simp [handleLimitOrderSubmission, h1, h2, h3]
  · intro env ci co h1 h2 h3 h4 h5
    simp [handleLimitOrderSubmission, h1, h2, h3, h4, rawAmountOf, h5]
  · intro env ci co rawIn h1 h2 h3 h4 h5 h6 h7
    simp only [handleLimitOrderSubmission, h1, h2, h3, h4, h5, h6]
    simp [h2, h4, h6, rawAmountOf, h7]
  · intro env ci co rawIn rawOut h1 h2 h3 h4 h5 h6 h7 h8 h9
    simp [handleLimitOrderSubmission, h1, h2, h3, h4, h5, h6, h7, h8, h9]
  · intro env ci co rawIn rawOut cl h1 h2 h3 h4 h5 h6 h7 h8 h9 h10
    simp [handleLimitOrderSubmission, h1, h2, h3, h4, h5, h6, h7, h8, h9, h10]

/-- A concrete environment with a client but no chain id. -/
def c5EnvNoChain : HandlersEnv := { c1Env with chainId := none }

/-- A concrete environment with a client but no signer. -/
def c5EnvNoSigner : HandlersEnv :=
  { c1Env with gelatoStopLimitOrders := some { c1Client with signer := none } }

/-- A concrete limit-order environment with no output currency. -/
def c5LimitNoOut : LimitOrderEnv := { c1LimitEnv with outputCurrency := none }

/-- A concrete limit-order environment with no parsed input amount. -/
def c5LimitNoIn : LimitOrderEnv := { c1LimitEnv with parsedInput := none }

/-- A concrete limit-order environment with no parsed output amount. -/
def c5LimitNoOutAmt : LimitOrderEnv := { c1LimitEnv with parsedOutput := none }

/-- A concrete limit-order environment with no execution client. -/
def c5LimitNoClient : LimitOrderEnv := { c1LimitEnv with gelatoLimitOrders := none }

/-- A concrete limit-order environment with no chain id. -/
def c5LimitNoChain : LimitOrderEnv := { c1LimitEnv with chainId := none }

/-- Witness for C5: each named precondition failure evaluated at a concrete
environment, producing the named error and the empty effect list. -/
theorem claim_c5_precondition_failures_witness :
    handleStopLimitOrderSubmission c1EnvFail c1Submit none =
      ([], .error "Could not reach Gelato Limit Orders library") ∧
    handleStopLimitOrderSubmission c5EnvNoChain c1Submit none =
      ([], .error "No chainId") ∧
    handleStopLimitOrderSubmission c5EnvNoSigner c1Submit none =
      ([], .error "No signer") ∧
    handleLimitOrderSubmission c1LimitEnvFail =
      ([], .error "Invalid input currency") ∧
    handleLimitOrderSubmission c5LimitNoOut =
      ([], .error "Invalid output currency") ∧
    handleLimitOrderSubmission c5LimitNoIn =
      ([], .error "Invalid input amount") ∧
    handleLimitOrderSubmission c5LimitNoOutAmt =
      ([], .error "Invalid output amount") ∧
    handleLimitOrderSubmission c5LimitNoClient =
      ([], .error "Could not reach Gelato Limit Orders library") ∧
    handleLimitOrderSubmission c5LimitNoChain =
      ([], .error "No chainId") := by
  refine ⟨?_, ?_, ?_, ?_, ?_, ?_, ?_, ?_, ?_⟩
  · exact claim_c5_precondition_failures.1 c1EnvFail c1Submit none rfl
  · exact claim_c5_precondition_failures.2.1 c5EnvNoChain c1Submit none c1Client rfl rfl
  · exact claim_c5_precondition_failures.2.2.1 c5EnvNoSigner c1Submit none
      { c1Client with signer := none } rfl rfl rfl
  · exact claim_c5_precondition_failures.2.2.2.1 c1LimitEnvFail rfl
  · exact claim_c5_precondition_failures.2.2.2.2.1 c5LimitNoOut
      { wrappedAddress := "0xIN", isNative := false, decimals := 2, symbol := "A" }
      rfl (by decide) rfl
  · exact claim_c5_precondition_failures.2.2.2.2.2.1 c5LimitNoIn
      { wrappedAddress := "0xIN", isNative := false, decimals := 2, symbol := "A" }
      { wrappedAddress := "0xOUT", isNative := false, decimals := 3, symbol := "B" }
      rfl (by decide) rfl (by decide) rfl
  · exact claim_c5_precondition_failures.2.2.2.2.2.2.1 c5LimitNoOutAmt
      { wrappedAddress := "0xIN", isNative := false, decimals := 2, symbol := "A" }
      { wrappedAddress := "0xOUT", isNative := false, decimals := 3, symbol := "B" }
      "100" rfl (by decide) rfl (by decide) rfl (by decide) rfl
  · exact claim_c5_precondition_failures.2.2.2.2.2.2.2.1 c5LimitNoClient
      { wrappedAddress := "0xIN", isNative := false, decimals := 2, symbol := "A" }
      { wrappedAddress := "0xOUT", isNative := false, decimals := 3, symbol := "B" }
      "100" "2000" rfl (by decide) rfl (by decide) rfl (by decide) rfl (by decide) rfl
  · exact claim_c5_precondition_failures.2.2.2.2.2.2.2.2 c5LimitNoChain
      { wrappedAddress := "0xIN", isNative := false, decimals := 2, symbol := "A" }
      { wrappedAddress := "0xOUT", isNative := false, decimals := 3, symbol := "B" }
      "100" "2000"
      { getFeeAndSlippageAdjustedMinReturn := fun s => s
        submitLimitOrder := fun _ _ _ _ => .ok { hash := "0xLiM" } }
      rfl (by decide) rfl (by decide) rfl (by decide) rfl (by decide) rfl rfl

/-- Claim C6: for a plain limit-order submission that reaches dispatch, the
minimum-return amount passed to `submitLimitOrder` is the
protocol-fee-and-slippage-adjusted value of the raw output amount, except on
Ethereum chains (where the execution layer charges no fee), on which it is
the raw output amount unadjusted. -/
theorem claim_c6_min_return :
    ∀ (env : LimitOrderEnv) (ci co : Currency) (rawIn rawOut : String)
      (cl : LimitClient) (ch : Nat),
      env.inputCurrency = some ci →
      ci.wrappedAddress ≠ "" →
      env.outputCurrency = some co →
      co.wrappedAddress ≠ "" →
      rawAmountOf (some ci) env.parsedInput = some rawIn →
      rawIn ≠ "" →
      rawAmountOf (some co) env.parsedOutput = some rawOut →
      rawOut ≠ "" →
      env.gelatoLimitOrders = some cl →
      env.chainId = some ch →
      ch ≠ 0 →
      ∃ rest res,
        handleLimitOrderSubmission env =
          (LimitEffect.submitCall (currencyAddress ci) (currencyAddress co)
            rawIn
            (if isEthereumChain ch then rawOut
             else cl.getFeeAndSlippageAdjustedMinReturn rawOut) :: rest, res) := by
  intro env ci co rawIn rawOut cl ch h1 h2 h3 h4 h5 h6 h7 h8 h9 h10 h11
  have hmr : minReturnFor cl ch rawOut =
      (if isEthereumChain ch then rawOut
       else cl.getFeeAndSlippageAdjustedMinReturn rawOut) := by
    unfold minReturnFor
    cases he : isEthereumChain ch <;> simp [he]
  rw [← hmr]
  unfold handleLimitOrderSubmission
  simp only [h1, h3, h5, h7, h9, h10, if_neg h2, if_neg h4, if_neg h6, if_neg h8,
    if_neg h11]
  rcases hs : cl.submitLimitOrder (currencyAddress ci) (currencyAddress co)
      rawIn (minReturnFor cl ch rawOut) with e | tx
  · exact ⟨_, _, rfl⟩
  · exact ⟨_, _, rfl⟩

/-- Witness for C6: the minimum-return argument evaluated on a concrete
non-Ethereum-chain environment (chain id 137). -/
theorem claim_c6_min_return_witness :
    ∃ rest res,
      handleLimitOrderSubmission c1LimitEnv =
        (LimitEffect.submitCall
          (currencyAddress { wrappedAddress := "0xIN", isNative := false, decimals := 2, symbol := "A" })
          (currencyAddress { wrappedAddress := "0xOUT", isNative := false, decimals := 3, symbol := "B" })
          "100"
          (if isEthereumChain 137 then "2000"
           else ({ getFeeAndSlippageAdjustedMinReturn := fun s => s
                   submitLimitOrder := fun _ _ _ _ => .ok { hash := "0xLiM" } } :
              LimitClient).getFeeAndSlippageAdjustedMinReturn "2000") :: rest, res) := by
  exact claim_c6_min_return c1LimitEnv
    { wrappedAddress := "0xIN", isNative := false, decimals := 2, symbol := "A" }
    { wrappedAddress := "0xOUT", isNative := false, decimals := 3, symbol := "B" }
    "100" "2000"
    { getFeeAndSlippageAdjustedMinReturn := fun s => s
      submitLimitOrder := fun _ _ _ _ => .ok { hash := "0xLiM" } }
    137 rfl (by decide) rfl (by decide) rfl (by decide) rfl (by decide) rfl rfl
    (by decide)

/-- Claim C7: for a selected token and a parsed decimal amount, the
fixed-point amount used in submission is the parsed human amount multiplied
by `10 ^ decimals`, rendered as an exact integer string; in particular
1000.0 of a 6-decimal token yields "1000000000". -/
theorem claim_c7_fixed_point_amount :
    ∀ (c : Currency) (human : ℚ) (raw : ℕ),
      (raw : ℚ) = human * 10 ^ c.decimals →
      rawAmountOf (some c)
          (some { num := (raw : ℤ), den := 1, decimals := c.decimals }) =
        some (toString raw) ∧
      humanVal { num := (raw : ℤ), den := 1, decimals := c.decimals } = human := by
  intro c human raw h
  constructor
  · unfold rawAmountOf camToExact camMultiplyPow10
    simp only [Int.tdiv_one]
    unfold decimalString
    have hp : ((10 : ℤ) ^ c.decimals) ≠ 0 := by positivity
    rw [Int.mul_tdiv_cancel _ hp, Int.mul_tmod_left]
    have hts : toString ((raw : ℤ)) = toString raw := rfl
    simp [hts]
  · unfold humanVal
    have hp : ((10 : ℚ) ^ c.decimals) ≠ 0 := by positivity
    field_simp
    rw [h]

/-- Witness for C7: the scenario input 1000.0 of a 6-decimal token (USDC)
yields the fixed-point submission amount "1000000000". -/
theorem claim_c7_fixed_point_amount_witness :
    rawAmountOf
        (some { wrappedAddress := "0xUSDC", isNative := false, decimals := 6, symbol := "USDC" })
        (some { num := (1000000000 : ℤ), den := 1, decimals := 6 }) =
      some (toString (1000000000 : ℕ)) ∧
    humanVal { num := (1000000000 : ℤ), den := 1, decimals := 6 } = 1000 := by
  exact claim_c7_fixed_point_amount
    { wrappedAddress := "0xUSDC", isNative := false, decimals := 6, symbol := "USDC" }
    1000 1000000000 (by norm_num)

/-- Claim C10: the stoploss execution-client constructor wrapper never
throws: it is a total function into an optional client that returns
`undefined` (`none`) whenever the chain id or the provider library is
absent, and also returns `none` rather than propagating the exception
whenever the underlying `GelatoStoplossOrders` constructor throws. -/
theorem claim_c10_stoploss_wrapper_total :
    ∀ (env : StoplossEnv),
      ((env.chainId = none ∨ env.library = none) →
        useGelatoStoplossOrdersLib env = none) ∧
      (∀ (c : Nat) (e : String),
        env.chainId = some c →
        env.construct c "quickswap_stoploss" = .error e →
        useGelatoStoplossOrdersLib env = none) := by
  intro env
  constructor
  · intro h
    unfold useGelatoStoplossOrdersLib
    rcases h with h | h
    · rw [h]
    · rw [h]
      rcases env.chainId with _ | c <;> rfl
  · intro c e hc he
    unfold useGelatoStoplossOrdersLib
    rw [hc]
    rcases hl : env.library with _ | l
    · rfl
    · by_cases hz : c = 0
      · simp [hz]
      · simp [hz, he]

/-- A concrete stoploss environment whose constructor throws. -/
def c10Env : StoplossEnv :=
  { chainId := some 56, library := some ()
    construct := fun _ _ => .error "unsupported chain" }

/-- A concrete stoploss environment with no chain id. -/
def c10EnvNoChain : StoplossEnv := { c10Env with chainId := none }

/-- Witness for C10: the wrapper returns `none` for a missing chain id and
for a throwing constructor. -/
theorem claim_c10_stoploss_wrapper_total_witness :
    useGelatoStoplossOrdersLib c10EnvNoChain = none ∧
    useGelatoStoplossOrdersLib c10Env = none := by
  constructor
  · exact (claim_c10_stoploss_wrapper_total c10EnvNoChain).1 (Or.inl rfl)
  · exact (claim_c10_stoploss_wrapper_total c10Env).2 56 "unsupported chain" rfl rfl

/-- Claim C4: toggling the rate type re-expresses the currently displayed
price in the opposite orientation at six significant digits, so toggling
twice returns the displayed price to its original value. Stated for the
stop-limit handler (price passed in canonical orientation) and for the
plain limit-order handler (price recomputed from unchanged parsed amounts). -/
theorem claim_c4_rate_toggle_involution :
    (∀ (r : Rate) (p : ℚ),
      handleRateTypeStopLimit (handleRateTypeStopLimit r (some p)).1 (some p) =
        (r, some (displayedPrice r p))) ∧
    (∀ (r : Rate) (i o : CurrencyAmount) (ci co : Currency),
      (i.num : ℚ) ≠ 0 → (i.den : ℚ) ≠ 0 → (o.num : ℚ) ≠ 0 → (o.den : ℚ) ≠ 0 →
      i.decimals = ci.decimals → o.decimals = co.decimals →
      handleRateTypeLimit
          ((handleRateTypeLimit r (some i) (some o) (some ci) (some co)).1)
          (some i) (some o) (some ci) (some co) =
        (r, some (limitDisplayedPrice r i o))) := by
  constructor
  · intro r p
    cases r <;> rfl
  · intro r i o ci co hin hid hon hod hdi hdo
    cases r
    case MUL =>
      have key : camToSignificant6 (camMultiplyPow10 (camDivide o i) ci.decimals) =
          toSignificant6 (humanVal o / humanVal i) := by
        unfold camToSignificant6 camMultiplyPow10 camDivide humanVal
        apply congrArg
        rw [← hdi]
        push_cast
        field_simp
        ring
      show (Rate.MUL,
          some (camToSignificant6 (camMultiplyPow10 (camDivide o i) ci.decimals))) =
        (Rate.MUL, some (toSignificant6 (humanVal o / humanVal i)))
      rw [key]
    case DIV =>
      have key : camToSignificant6 (camMultiplyPow10 (camDivide i o) co.decimals) =
          toSignificant6 (humanVal i / humanVal o) := by
        unfold camToSignificant6 camMultiplyPow10 camDivide humanVal
        apply congrArg
        rw [← hdo]
        push_cast
        field_simp
        ring
      show (Rate.DIV,
          some (camToSignificant6 (camMultiplyPow10 (camDivide i o) co.decimals))) =
        (Rate.DIV, some (toSignificant6 (humanVal i / humanVal o)))
      rw [key]

/-- Witness for C4: the double toggle evaluated on concrete parsed amounts
(100.00 of a 2-decimal input, 2.000 of a 3-decimal output). -/
theorem claim_c4_rate_toggle_involution_witness :
    handleRateTypeLimit
        ((handleRateTypeLimit Rate.MUL
          (some { num := 10000, den := 1, decimals := 2 })
          (some { num := 2000, den := 1, decimals := 3 })
          (some { wrappedAddress := "0xIN", isNative := false, decimals := 2, symbol := "A" })
          (some { wrappedAddress := "0xOUT", isNative := false, decimals := 3, symbol := "B" })).1)
        (some { num := 10000, den := 1, decimals := 2 })
        (some { num := 2000, den := 1, decimals := 3 })
        (some { wrappedAddress := "0xIN", isNative := false, decimals := 2, symbol := "A" })
        (some { wrappedAddress := "0xOUT", isNative := false, decimals := 3, symbol := "B" }) =
      (Rate.MUL, some (limitDisplayedPrice Rate.MUL
        { num := 10000, den := 1, decimals := 2 }
        { num := 2000, den := 1, decimals := 3 })) := by
  exact claim_c4_rate_toggle_involution.2 Rate.MUL
    { num := 10000, den := 1, decimals := 2 }
    { num := 2000, den := 1, decimals := 3 }
    { wrappedAddress := "0xIN", isNative := false, decimals := 2, symbol := "A" }
    { wrappedAddress := "0xOUT", isNative := false, decimals := 3, symbol := "B" }
    (by norm_num) (by norm_num) (by norm_num) (by norm_num) rfl rfl

/-- Claim C8: under the step relation generated by the submission and
cancellation handlers on the history, record statuses are monotone and
one-directional: a record enters the history with status "open", a
surviving record's status either stays or becomes "cancelled", and no
sequence of handler operations returns a record's status to "open". -/
theorem claim_c8_status_monotone :
    (∀ (ops : List HandlerOp) (h h2 : List StopLimitOrder) (i : String)
        (r r2 : StopLimitOrder),
      runHandlerOps h ops = some h2 →
      findRecord h i = some r → findRecord h2 i = some r2 →
      (r2.status = r.status ∨ r2.status = "cancelled") ∧
      (r.status ≠ "open" → r2.status ≠ "open")) ∧
    (∀ (op : HandlerOp) (h h2 : List StopLimitOrder) (i : String)
        (r2 : StopLimitOrder),
      applyHandlerOp h op = some h2 →
      findRecord h i = none → findRecord h2 i = some r2 →
      r2.status = "open") := by
  constructor
  · intro ops h h2 i r r2 hrun hf hf2
    obtain ⟨r2', hf2', hst⟩ := runHandlerOps_mono hrun hf
    have hr2 : r2' = r2 := by
      rw [hf2] at hf2'
      exact (Option.some.inj hf2').symm
    subst hr2
    refine ⟨hst, ?_⟩
    intro hno
    rcases hst with hs | hs
    · rw [hs]
      exact hno
    · rw [hs]
      simp
  · intro op h h2 i r2 happ hnone hf2
    exact applyHandlerOp_new happ hnone hf2

/-- A concrete record for the history-store runs. -/
def c8Order : StopLimitOrder := { c1Order with id := "ord8" }

/-- Witness for C8: a concrete cancellation step flips an "open" record to
"cancelled", and a concrete submission step creates an "open" record. -/
theorem claim_c8_status_monotone_witness :
    ((cancellationRecord c8Order "0xB" 2).status = c8Order.status ∨
      (cancellationRecord c8Order "0xB" 2).status = "cancelled") ∧
    (c8Order.status ≠ "open" → (cancellationRecord c8Order "0xB" 2).status ≠ "open") ∧
    (submissionRecord c8Order "w9" "0xA" 1).status = "open" := by
  refine ⟨?_, ?_, ?_⟩
  · exact (claim_c8_status_monotone.1 [HandlerOp.cancel "ord8" "0xB" 2]
      [c8Order] [cancellationRecord c8Order "0xB" 2] "ord8" c8Order
      (cancellationRecord c8Order "0xB" 2) rfl rfl rfl).1
  · exact (claim_c8_status_monotone.1 [HandlerOp.cancel "ord8" "0xB" 2]
      [c8Order] [cancellationRecord c8Order "0xB" 2] "ord8" c8Order
      (cancellationRecord c8Order "0xB" 2) rfl rfl rfl).2
  · exact claim_c8_status_monotone.2 (HandlerOp.submit c8Order "w9" "0xA" 1)
      [] [submissionRecord c8Order "w9" "0xA" 1] "ord8"
      (submissionRecord c8Order "w9" "0xA" 1) rfl rfl rfl

/-- Claim C9: in any successful run of history-store operations from the
empty history, a cancellation patch for an identifier is always preceded by
the creation append for that identifier — the patch requires the record to
already exist, found by identifier lookup. -/
theorem claim_c9_patch_after_append :
    ∀ (l1 l2 : List HistOp) (pid txHash : String) (now : Nat)
      (hfin : List StopLimitOrder),
      runHistOps [] (l1 ++ HistOp.patchCancelled pid txHash now :: l2) = some hfin →
      ∃ r, HistOp.append r ∈ l1 ∧ r.id = pid := by
  intro l1 l2 pid txHash now hfin hrun
  obtain ⟨hm, h1, h2⟩ := runHistOps_split hrun
  simp only [runHistOps] at h2
  rcases happ : applyHistOp hm (HistOp.patchCancelled pid txHash now) with _ | hmid
  · rw [happ] at h2
    simp at h2
  · simp only [applyHistOp] at happ
    rcases hfr : findRecord hm pid with _ | rp
    · rw [hfr] at happ
      simp at happ
    · rcases runHistOps_id_origin h1 hfr with ⟨r0, hr0⟩ | ⟨r, hmem, hri⟩
      · simp [findRecord] at hr0
      · exact ⟨r, hmem, hri⟩

/-- A concrete record for the C9 run. -/
def c9Order : StopLimitOrder := { c1Order with id := "ord9" }

/-- Witness for C9: a concrete successful append-then-patch run, from which
the preceding append is recovered. -/
theorem claim_c9_patch_after_append_witness :
    ∃ r, HistOp.append r ∈ [HistOp.append c9Order] ∧ r.id = "ord9" := by
  exact claim_c9_patch_after_append [HistOp.append c9Order] []
    "ord9" "0xB" 2 [cancellationRecord c9Order "0xB" 2] rfl
